import Mathlib

/-!
Verification development for the Excel-analysis preprocessing service.

The definitions below are a shallow embedding of the two core functions of
`src/service/preprocesss.py`:

* `preprocess_excel` — the five-stage cleaning pipeline (empty check, all-null
  column removal, duplicate-row removal, missing-value imputation, column-name
  normalization) together with its statistics bookkeeping;
* `calculate_data_score` — the 0–100 composite data-quality score.

A table cell is numeric, text, or the null marker (pandas `NaN`).  Machine
floats are modelled as exact rationals; pandas library calls (`dropna`,
`drop_duplicates`, `median`, `mode`, `fillna(ffill/bfill)`) are embedded by
their documented semantics on this cell model.  In particular
`Series.mode()` returns the maximal-frequency values in ascending sorted
order, so the value used to fill (`mode().iloc[0]`) is the least tied value.
-/

/-- A cell of the table: a numeric value, a text value, or the null marker. -/
inductive Cell where
  | num (q : ℚ)
  | str (s : String)
  | null
deriving DecidableEq, Repr

/-- A row is the list of its cells in column order. -/
abbrev Row := List Cell

/-- A table: ordered column names plus the rows (each row lists its cells in
column order).  Well-formed tables have every row of length `names.length`. -/
structure Table where
  names : List String
  rows : List Row
deriving DecidableEq, Repr

/-- The statistics record accumulated by the pipeline (the `data` block of the
response of `preprocess_excel`). -/
structure CleanStats where
  original_rows : Nat
  original_cols : Nat
  null_columns_removed : Nat
  duplicates_removed : Nat
  missing_before : Nat
  missing_after : Nat
deriving DecidableEq, Repr

/-- Failure modes of the pipeline that occur after parsing. -/
inductive CleanError where
  | emptyInput
deriving DecidableEq, Repr

/-- Test for the null marker. -/
def Cell.isNull : Cell → Bool
  | Cell.null => true
  | _ => false

/-- Test for a text cell. -/
def Cell.isStr : Cell → Bool
  | Cell.str _ => true
  | _ => false

/-- Cell of row `r` in column position `j` (null when out of range). -/
def cellAt (r : Row) (j : Nat) : Cell := r.getD j Cell.null

/-- Column `j` of a row list, top to bottom. -/
def getCol (rows : List Row) (j : Nat) : List Cell := rows.map (fun r => cellAt r j)

/-- Indices of the columns kept by `df.dropna(axis=1, how='all')`: a column is
kept iff some row has a non-null cell there. -/
def keptCols (t : Table) : List Nat :=
  (List.range t.names.length).filter (fun j => t.rows.any (fun r => !(cellAt r j).isNull))

/-- Stage 1, `df.dropna(axis=1, how='all')`: drop every column whose cells are
all null, preserving the order of the surviving columns. -/
def dropNullColumns (t : Table) : Table :=
  { names := (keptCols t).map (fun j => t.names.getD j ""),
    rows := t.rows.map (fun r => (keptCols t).map (fun j => cellAt r j)) }

/-- Generic first-occurrence deduplication with an accumulator of the values
seen so far. -/
def dedupFrom {α : Type} [DecidableEq α] (seen : List α) : List α → List α
  | [] => []
  | x :: xs => if x ∈ seen then dedupFrom seen xs else x :: dedupFrom (x :: seen) xs

/-- Stage 2, `df.drop_duplicates().reset_index(drop=True)`: keep the first
occurrence of each distinct row (cells compared with null equal to null),
preserving order; the list result renumbers rows contiguously from zero. -/
def dropDuplicates (rows : List Row) : List Row := dedupFrom [] rows

/-- Stage 2 at the table level.  pandas `duplicated()` and
`drop_duplicates()` both start with an `if self.empty` short-circuit, and a
frame is empty when either axis has length zero: on such a frame (e.g. the
zero-column frame left when stage 1 drops every column) every row is kept
and no duplicate is reported.  Otherwise the first occurrence of each
distinct row is kept. -/
def dropDuplicatesTable (t : Table) : Table :=
  if t.rows.length = 0 || t.names.length = 0 then t
  else { names := t.names, rows := dropDuplicates t.rows }

/-- Total null-cell count of a row list (`df.isnull().sum().sum()`). -/
def countNulls (rows : List Row) : Nat :=
  (rows.map (fun r => (r.filter (fun c => c.isNull)).length)).sum

/-- The non-null cells of a column (pandas skips `NaN` in `median`/`mode`). -/
def nonNullCells (cells : List Cell) : List Cell := cells.filter (fun c => !c.isNull)

/-- A column has numeric dtype (is in `select_dtypes(include=[np.number])`)
iff it holds no text cell. -/
def isNumericCol (cells : List Cell) : Bool := cells.all (fun c => !c.isStr)

/-- The numeric values of a column. -/
def numsOf (cells : List Cell) : List ℚ :=
  cells.filterMap (fun c => match c with | Cell.num q => some q | _ => none)

/-- Insert a rational into a sorted list, keeping it sorted. -/
def insertSorted (x : ℚ) : List ℚ → List ℚ
  | [] => [x]
  | y :: ys => if x ≤ y then x :: y :: ys else y :: insertSorted x ys

/-- Ascending sort of a list of rationals. -/
def sortRat (xs : List ℚ) : List ℚ := xs.foldr insertSorted []

/-- The pandas `Series.median()` over the non-null values already extracted:
none on an empty list, the middle element for odd length, and the average of
the two middle elements for even length. -/
def median (xs : List ℚ) : Option ℚ :=
  if xs.length = 0 then none
  else if xs.length % 2 = 1 then some ((sortRat xs).getD (xs.length / 2) 0)
  else some (((sortRat xs).getD (xs.length / 2 - 1) 0 + (sortRat xs).getD (xs.length / 2) 0) / 2)

/-- Strict lexicographic order on character lists (code-point order), the
order `np.sort` uses on text values. -/
def charListLt : List Char → List Char → Bool
  | [], [] => false
  | [], _ :: _ => true
  | _ :: _, [] => false
  | a :: as, b :: bs => if a < b then true else if b < a then false else charListLt as bs

/-- Strict sort order on cells as `np.sort` orders a column's values: numeric
values by numeric order, text values by lexicographic order, numeric before
text (the null marker never participates: `mode` drops nulls first). -/
def cellLt : Cell → Cell → Bool
  | Cell.num a, Cell.num b => decide (a < b)
  | Cell.num _, Cell.str _ => true
  | Cell.str _, Cell.num _ => false
  | Cell.str a, Cell.str b => charListLt a.data b.data
  | Cell.null, _ => false
  | _, Cell.null => true

/-- Insert a cell into a `cellLt`-sorted list, keeping it sorted. -/
def cellInsert (x : Cell) : List Cell → List Cell
  | [] => [x]
  | y :: ys => if cellLt x y then x :: y :: ys else y :: cellInsert x ys

/-- Ascending `cellLt`-sort of a list of cells. -/
def sortCells (l : List Cell) : List Cell := l.foldr cellInsert []

/-- The maximal multiplicity among the values of `nn`. -/
def maxCount (nn : List Cell) : Nat := (nn.map (fun c => nn.count c)).foldr max 0

/-- The pandas `Series.mode()` of a column followed by `.iloc[0]`: among the
non-null values, the distinct values of maximal frequency listed in ascending
sorted order; the head of that list (none when the column has no non-null
value, in which case the source skips the fill). -/
def modeCell (cells : List Cell) : Option Cell :=
  (sortCells ((dedupFrom [] (nonNullCells cells)).filter
    (fun c => (nonNullCells cells).count c == maxCount (nonNullCells cells)))).head?

/-- Replace every null of a column by the fill value `m` (`Series.fillna(m)`). -/
def fillWith (m : Cell) (cells : List Cell) : List Cell :=
  cells.map (fun c => if c.isNull then m else c)

/-- The typed imputation of stage 3: a numeric-dtype column is filled with its
median (`df[numeric_cols].fillna(df[numeric_cols].median())`), any other
column with the head of its mode (`df[col].fillna(df[col].mode().iloc[0])`);
a column whose median/mode does not exist is left unchanged. -/
def imputeTyped (cells : List Cell) : List Cell :=
  if isNumericCol cells then
    match median (numsOf cells) with
    | some m => fillWith (Cell.num m) cells
    | none => cells
  else
    match modeCell cells with
    | some m => fillWith m cells
    | none => cells

/-- Forward fill along a column: a null cell takes the nearest preceding
non-null value, nulls with no preceding value stay null. -/
def ffillFrom (last : Option Cell) : List Cell → List Cell
  | [] => []
  | c :: cs =>
    if c.isNull then
      match last with
      | some v => v :: ffillFrom (some v) cs
      | none => Cell.null :: ffillFrom none cs
    else c :: ffillFrom (some c) cs

/-- The `df.fillna(method='ffill')` pass on one column. -/
def ffillCol (cells : List Cell) : List Cell := ffillFrom none cells

/-- The `df.fillna(method='bfill')` pass on one column: forward fill of the
reversed column, reversed back. -/
def bfillCol (cells : List Cell) : List Cell := (ffillCol cells.reverse).reverse

/-- Stage 3 on one column: typed imputation, then forward fill, then backward
fill. -/
def imputeCol (cells : List Cell) : List Cell := bfillCol (ffillCol (imputeTyped cells))

/-- Stage 3 on the table: every column is imputed independently; the rows are
rebuilt from the imputed columns. -/
def imputeTable (t : Table) : Table :=
  { names := t.names,
    rows :=
      (List.range t.rows.length).map (fun i =>
        ((List.range t.names.length).map (fun j => imputeCol (getCol t.rows j))).map
          (fun c => c.getD i Cell.null)) }

/-- Stage 4 normalization of one column name, embedding
`str(col).strip().replace(" ", "_").lower()`: trim surrounding whitespace,
replace every space by an underscore, lower-case. -/
def normalizeName (s : String) : String :=
  String.mk
    ((((s.data.dropWhile Char.isWhitespace).reverse.dropWhile Char.isWhitespace).reverse.map
        (fun c => if c = ' ' then '_' else c)).map Char.toLower)

/-- Stage 4 on the table: `df.columns = [str(col).strip().replace(" ", "_").lower() ...]`. -/
def renameColumns (t : Table) : Table :=
  { names := t.names.map normalizeName, rows := t.rows }

/-- Banker's rounding of a rational to the nearest integer (Python's `round`). -/
def roundHalfEven (q : ℚ) : ℤ :=
  if q - ⌊q⌋ < 1 / 2 then ⌊q⌋
  else if 1 / 2 < q - ⌊q⌋ then ⌊q⌋ + 1
  else if ⌊q⌋ % 2 = 0 then ⌊q⌋ else ⌊q⌋ + 1

/-- Python's `round(x, 2)`: round to two decimal places. -/
def round2 (q : ℚ) : ℚ := (roundHalfEven (q * 100) : ℚ) / 100

/-- The quality scorer `calculate_data_score` of the source: the zero-cell
safety check, the three sub-scores, the weighted sum, `round(…, 2)`, and the
final `max(0, min(100, …))` clamp, in that order. -/
def calculate_data_score (original_rows original_cols missing_before missing_after
    duplicates_removed : Nat) : ℚ :=
  let total_cells : ℚ := (original_rows : ℚ) * (original_cols : ℚ)
  if total_cells = 0 then 0
  else
    let completeness := max 0 (100 - ((missing_after : ℚ) / total_cells * 100))
    let improvement :=
      max 0 (min 100
        (if (0 : ℚ) < (missing_before : ℚ) then
          ((missing_before : ℚ) - (missing_after : ℚ)) / (missing_before : ℚ) * 100
        else 100))
    let consistency :=
      if (0 : ℚ) < (original_rows : ℚ) then
        max 0 (100 - ((duplicates_removed : ℚ) / (original_rows : ℚ) * 100))
      else 100
    let final_score := 0.4 * completeness + 0.3 * improvement + 0.3 * consistency
    max 0 (min 100 (round2 final_score))

/-- The complete pipeline `preprocess_excel` after parsing: the `df.empty`
check (true iff the row axis or the column axis has length zero), the four
transformation stages — with stage 2 inheriting pandas' empty-frame
short-circuit — and the statistics record of the response. -/
def preprocess_excel (t : Table) : Except CleanError (Table × CleanStats) :=
  if t.rows.length = 0 || t.names.length = 0 then
    Except.error CleanError.emptyInput
  else
    let t1 := dropNullColumns t
    let t2 := dropDuplicatesTable t1
    let t3 := imputeTable t2
    Except.ok (renameColumns t3,
      { original_rows := t.rows.length,
        original_cols := t.names.length,
        null_columns_removed := t.names.length - t1.names.length,
        duplicates_removed := t1.rows.length - t2.rows.length,
        missing_before := countNulls t.rows,
        missing_after := countNulls t3.rows })

instance {ε α : Type} [DecidableEq ε] [DecidableEq α] : DecidableEq (Except ε α) :=
  fun a b =>
    match a, b with
    | Except.ok x, Except.ok y =>
      if h : x = y then isTrue (by rw [h]) else isFalse (by intro hc; cases hc; exact h rfl)
    | Except.error x, Except.error y =>
      if h : x = y then isTrue (by rw [h]) else isFalse (by intro hc; cases hc; exact h rfl)
    | Except.ok _, Except.error _ => isFalse (by intro hc; cases hc)
    | Except.error _, Except.ok _ => isFalse (by intro hc; cases hc)

/-- Running the pipeline twice, returning the statistics of the second run. -/
def cleanAgain (t : Table) : Option CleanStats :=
  match preprocess_excel t with
  | Except.ok (t1, _) =>
    match preprocess_excel t1 with
    | Except.ok (_, s2) => some s2
    | Except.error _ => none
  | Except.error _ => none

/-- Stage 2 as the specification words it: the row of each index survives iff
it is the first occurrence of its value, survivors keep the original order. -/
def specDedup (rows : List Row) : List Row :=
  ((List.range rows.length).filter
      (fun i => decide (rows.getD i [] ∉ rows.take i))).map (fun i => rows.getD i [])

/-- The table as it stands after stage 2 (columns filtered, rows
deduplicated unless the stage-1 result is an empty frame). -/
def stage2Table (t : Table) : Table := dropDuplicatesTable (dropNullColumns t)

/-- The head of a list is a `cellLt`-lower bound of the whole list. -/
def HeadLB (s : List Cell) : Prop :=
  ∀ m, s.head? = some m → ∀ x ∈ s, cellLt x m = false

/-- The scorer as §4.2 of the specification words it: the same three
sub-scores, the `total_cells == 0` short-circuit, then the weighted sum
clamped to `[0,100]` and rounded to two decimal places (the specification
clamps before rounding where the source rounds before clamping). -/
def scoreSpec (original_rows original_cols missing_before missing_after
    duplicates_removed : Nat) : ℚ :=
  let total_cells : ℚ := (original_rows : ℚ) * (original_cols : ℚ)
  if total_cells = 0 then 0
  else
    let completeness := max 0 (100 - ((missing_after : ℚ) / total_cells * 100))
    let improvement :=
      if (0 : ℚ) < (missing_before : ℚ) then
        max 0 (min 100
          (((missing_before : ℚ) - (missing_after : ℚ)) / (missing_before : ℚ) * 100))
      else 100
    let consistency :=
      if (0 : ℚ) < (original_rows : ℚ) then
        max 0 (100 - ((duplicates_removed : ℚ) / (original_rows : ℚ) * 100))
      else 100
    round2 (min 100 (max 0 (0.4 * completeness + 0.3 * improvement + 0.3 * consistency)))

/-- A one-column table whose null is imputed to the value of the other row:
cleaning yields two identical rows, so a second cleaning removes a duplicate. -/
def tblIdem : Table := { names := ["a"], rows := [[Cell.null], [Cell.num 1]] }

/-- A one-column text table with a frequency tie: "b" is encountered first,
but "a" is first in sorted order. -/
def tblTie : Table :=
  { names := ["c"], rows := [[Cell.str "b"], [Cell.str "a"], [Cell.null]] }

/-- A table with one column and no rows (`df.empty` is true although the
column count is nonzero). -/
def tblZeroRows : Table := { names := ["a"], rows := [] }

/-- The duplicate-rows scenario of the specification: three rows, two of them
identical. -/
def tblScenarioDup : Table :=
  { names := ["c1", "c2"],
    rows := [[Cell.str "a", Cell.num 1], [Cell.str "x", Cell.num 2],
      [Cell.str "a", Cell.num 1]] }

/-- Two distinct column names that collide after normalization. -/
def tblCollide : Table := { names := ["A B", "A_B"], rows := [[Cell.num 1, Cell.num 2]] }

/-- A table whose columns are all null: stage 1 drops both columns, so stage
2 runs on a three-row zero-column frame. -/
def tblAllNull : Table :=
  { names := ["a", "b"],
    rows := [[Cell.null, Cell.null], [Cell.null, Cell.null], [Cell.null, Cell.null]] }

/-- A small well-behaved table used to witness the universal theorems: one
text column with a null, one numeric column with a null. -/
def tblWitness : Table :=
  { names := [" First Name ", "n"],
    rows := [[Cell.str "bob", Cell.num 1], [Cell.null, Cell.null],
      [Cell.str "bob", Cell.num 3], [Cell.str "ann", Cell.num 3]] }

namespace Pipeline

theorem mem_of_mem_dedupFrom {α : Type} [DecidableEq α] {seen l : List α} {x : α}
    (h : x ∈ dedupFrom seen l) : x ∈ l := by
  induction l generalizing seen with
  | nil => simpa [dedupFrom] using h
  | cons a as ih =>
    by_cases ha : a ∈ seen
    · simp only [dedupFrom, if_pos ha] at h
      exact List.mem_cons_of_mem a (ih h)
    · simp only [dedupFrom, if_neg ha, List.mem_cons] at h
      rcases h with h | h
      · exact h ▸ List.mem_cons_self a as
      · exact List.mem_cons_of_mem a (ih h)

theorem mem_dedupFrom_of_mem {α : Type} [DecidableEq α] {seen l : List α} {x : α}
    (h : x ∈ l) : x ∈ seen ∨ x ∈ dedupFrom seen l := by
  induction l generalizing seen with
  | nil => cases h
  | cons a as ih =>
    by_cases ha : a ∈ seen
    · rcases List.mem_cons.mp h with rfl | hx
      · exact Or.inl ha
      · simpa [dedupFrom, if_pos ha] using ih hx
    · simp only [dedupFrom, if_neg ha]
      rcases List.mem_cons.mp h with rfl | hx
      · exact Or.inr (List.mem_cons_self x _)
      · rcases @ih (a :: seen) hx with hs | hd
        · rcases List.mem_cons.mp hs with rfl | hs
          · exact Or.inr (List.mem_cons_self x _)
          · exact Or.inl hs
        · exact Or.inr (List.mem_cons_of_mem a hd)

theorem length_ffillFrom (last : Option Cell) (l : List Cell) :
    (ffillFrom last l).length = l.length := by
  induction l generalizing last with
  | nil => rfl
  | cons c cs ih =>
    by_cases hc : c.isNull
    · cases last with
      | some v => simp [ffillFrom, hc, ih]
      | none => simp [ffillFrom, hc, ih]
    · simp [ffillFrom, hc, ih]

theorem ffillFrom_of_no_null {l : List Cell} (h : ∀ c ∈ l, c.isNull = false) :
    ∀ last, ffillFrom last l = l := by
  induction l with
  | nil => intro last; rfl
  | cons c cs ih =>
    intro last
    have hc : c.isNull = false := h c (List.mem_cons_self c cs)
    simp [ffillFrom, hc, ih (fun x hx => h x (List.mem_cons_of_mem c hx))]

theorem length_fillWith (m : Cell) (l : List Cell) : (fillWith m l).length = l.length := by
  simp [fillWith]

theorem fillWith_no_null {m : Cell} (hm : m.isNull = false) (l : List Cell) :
    ∀ c ∈ fillWith m l, c.isNull = false := by
  intro c hc
  rcases List.mem_map.mp hc with ⟨x, _, rfl⟩
  by_cases hx : x.isNull
  · simpa [hx] using hm
  · simpa [hx] using (Bool.not_eq_true _).mp hx

theorem length_imputeTyped (l : List Cell) : (imputeTyped l).length = l.length := by
  unfold imputeTyped
  by_cases hn : isNumericCol l
  · simp only [hn, if_true]
    cases median (numsOf l) with
    | some m => simp [length_fillWith]
    | none => rfl
  · simp only [hn, if_false]
    cases modeCell l with
    | some m => simp [length_fillWith]
    | none => rfl

theorem length_ffillCol (l : List Cell) : (ffillCol l).length = l.length :=
  length_ffillFrom none l

theorem length_bfillCol (l : List Cell) : (bfillCol l).length = l.length := by
  simp [bfillCol, length_ffillCol]

theorem length_imputeCol (l : List Cell) : (imputeCol l).length = l.length := by
  simp [imputeCol, length_bfillCol, length_ffillCol, length_imputeTyped]

theorem imputeCol_of_no_null {l : List Cell} (h : ∀ c ∈ l, c.isNull = false) :
    bfillCol (ffillCol l) = l := by
  have h1 : ffillCol l = l := ffillFrom_of_no_null h none
  have h2 : ∀ c ∈ l.reverse, c.isNull = false := by
    intro c hc; exact h c (List.mem_reverse.mp hc)
  rw [h1]
  simp [bfillCol, ffillCol, ffillFrom_of_no_null h2]

theorem countNulls_eq_zero {rows : List Row} (h : ∀ r ∈ rows, ∀ c ∈ r, c.isNull = false) :
    countNulls rows = 0 := by
  apply List.sum_eq_zero
  intro x hx
  rcases List.mem_map.mp hx with ⟨r, hr, rfl⟩
  simp only [List.length_eq_zero]
  exact List.filter_eq_nil_iff.mpr (fun c hc => by simp [h r hr c hc])

end Pipeline

namespace Pipeline

theorem charListLt_irrefl (l : List Char) : charListLt l l = false := by
  induction l with
  | nil => rfl
  | cons c cs ih => simp [charListLt, lt_irrefl, ih]

theorem charListLt_asymm : ∀ {a b : List Char}, charListLt a b = true → charListLt b a = false
  | [], [], h => by simpa [charListLt] using h
  | [], _ :: _, _ => by simp [charListLt]
  | _ :: _, [], h => by simpa [charListLt] using h
  | a :: as, b :: bs, h => by
    by_cases hab : a < b
    · simp [charListLt, hab, asymm hab, not_lt_of_lt hab]
    · by_cases hba : b < a
      · simp [charListLt, hab, hba] at h
      · have : charListLt as bs = true := by simpa [charListLt, hab, hba] using h
        simp [charListLt, hab, hba, charListLt_asymm this]

theorem charListLt_trans : ∀ {a b c : List Char},
    charListLt a b = true → charListLt b c = true → charListLt a c = true
  | [], [], _, h1, _ => by simp [charListLt] at h1
  | [], _ :: _, [], _, h2 => by simp [charListLt] at h2
  | [], _ :: _, _ :: _, _, _ => by simp [charListLt]
  | _ :: _, [], _, h1, _ => by simp [charListLt] at h1
  | _ :: _, _ :: _, [], _, h2 => by simp [charListLt] at h2
  | a :: as, b :: bs, c :: cs, h1, h2 => by
    by_cases hab : a < b
    · by_cases hbc : b < c
      · simp [charListLt, lt_trans hab hbc]
      · by_cases hcb : c < b
        · simp [charListLt, hbc, hcb] at h2
        · have hbc' : b = c := le_antisymm (not_lt.mp hcb) (not_lt.mp hbc)
          simp [charListLt, hbc' ▸ hab]
    · by_cases hba : b < a
      · simp [charListLt, hab, hba] at h1
      · have hab' : a = b := le_antisymm (not_lt.mp hba) (not_lt.mp hab)
        have h1' : charListLt as bs = true := by simpa [charListLt, hab, hba] using h1
        by_cases hbc : b < c
        · simp [charListLt, hab' ▸ hbc]
        · by_cases hcb : c < b
          · simp [charListLt, hbc, hcb] at h2
          · have hbc' : b = c := le_antisymm (not_lt.mp hcb) (not_lt.mp hbc)
            have h2' : charListLt bs cs = true := by simpa [charListLt, hbc, hcb] using h2
            subst hab' hbc'
            simp [charListLt, hab, hba, charListLt_trans h1' h2']

theorem cellLt_irrefl (a : Cell) : cellLt a a = false := by
  cases a with
  | num q => simp [cellLt]
  | str s => simp [cellLt, charListLt_irrefl]
  | null => rfl

theorem cellLt_asymm : ∀ {a b : Cell}, cellLt a b = true → cellLt b a = false := by
  intro a b h
  cases a <;> cases b <;> simp_all [cellLt]
  · exact le_of_lt h
  · exact charListLt_asymm h

theorem cellLt_trans : ∀ {a b c : Cell},
    cellLt a b = true → cellLt b c = true → cellLt a c = true := by
  intro a b c h1 h2
  cases a <;> cases b <;> cases c <;> simp_all [cellLt]
  · exact lt_trans h1 h2
  · exact charListLt_trans h1 h2

end Pipeline

namespace Pipeline

theorem mem_cellInsert {x a : Cell} : ∀ {s : List Cell}, x ∈ cellInsert a s ↔ x = a ∨ x ∈ s := by
  intro s
  induction s with
  | nil => simp [cellInsert]
  | cons y ys ih =>
    by_cases h : cellLt a y
    · simp [cellInsert, h]
    · simp only [cellInsert, if_neg h, List.mem_cons, ih]
      tauto

theorem length_cellInsert (a : Cell) : ∀ (s : List Cell),
    (cellInsert a s).length = s.length + 1 := by
  intro s
  induction s with
  | nil => rfl
  | cons y ys ih =>
    by_cases h : cellLt a y
    · simp [cellInsert, h]
    · simp [cellInsert, h, ih]

theorem mem_sortCells {x : Cell} : ∀ {l : List Cell}, x ∈ sortCells l ↔ x ∈ l := by
  intro l
  induction l with
  | nil => simp [sortCells]
  | cons a as ih =>
    show x ∈ cellInsert a (sortCells as) ↔ _
    rw [mem_cellInsert]
    simp [ih]

theorem length_sortCells : ∀ (l : List Cell), (sortCells l).length = l.length := by
  intro l
  induction l with
  | nil => rfl
  | cons a as ih =>
    show (cellInsert a (sortCells as)).length = _
    rw [length_cellInsert, ih, List.length_cons]

theorem headLB_cellInsert {s : List Cell} (hs : HeadLB s) (a : Cell) :
    HeadLB (cellInsert a s) := by
  cases s with
  | nil =>
    intro m hm x hx
    simp only [cellInsert, List.head?_cons, Option.some.injEq] at hm
    simp only [cellInsert, List.mem_singleton] at hx
    rw [hx, ← hm]
    exact cellLt_irrefl a
  | cons y ys =>
    by_cases h : cellLt a y
    · intro m hm x hx
      simp only [cellInsert, if_pos h, List.head?_cons, Option.some.injEq] at hm
      simp only [cellInsert, if_pos h] at hx
      rw [← hm]
      rcases List.mem_cons.mp hx with rfl | hx
      · exact cellLt_irrefl x
      · rcases List.mem_cons.mp hx with rfl | hx
        · exact cellLt_asymm h
        · have hxy : cellLt x y = false := hs y rfl x (List.mem_cons_of_mem y hx)
          by_cases hxa : cellLt x a
          · exact absurd (cellLt_trans hxa h) (by simp [hxy])
          · simpa using hxa
    · intro m hm x hx
      simp only [cellInsert, if_neg h, List.head?_cons, Option.some.injEq] at hm
      simp only [cellInsert, if_neg h] at hx
      rw [← hm]
      rcases List.mem_cons.mp hx with rfl | hx
      · exact cellLt_irrefl x
      · rcases mem_cellInsert.mp hx with rfl | hx
        · simpa using h
        · exact hs y rfl x (List.mem_cons_of_mem y hx)

theorem headLB_sortCells : ∀ (l : List Cell), HeadLB (sortCells l) := by
  intro l
  induction l with
  | nil => intro m hm; simp [sortCells] at hm
  | cons a as ih => exact headLB_cellInsert ih a

theorem le_foldr_max (l : List Nat) : ∀ x ∈ l, x ≤ l.foldr max 0 := by
  induction l with
  | nil => intro x hx; cases hx
  | cons a as ih =>
    intro x hx
    rcases List.mem_cons.mp hx with rfl | hx
    · exact le_max_left _ _
    · exact le_trans (ih x hx) (le_max_right _ _)

theorem foldr_max_mem_or_zero (l : List Nat) : l.foldr max 0 ∈ l ∨ l.foldr max 0 = 0 := by
  induction l with
  | nil => exact Or.inr rfl
  | cons a as ih =>
    show max a (as.foldr max 0) ∈ a :: as ∨ _
    rcases ih with h | h
    · rcases max_choice a (as.foldr max 0) with hm | hm
      · rw [hm]; exact Or.inl (List.mem_cons_self a as)
      · rw [hm]; exact Or.inl (List.mem_cons_of_mem a h)
    · rw [h, max_eq_left (Nat.zero_le a)]
      exact Or.inl (List.mem_cons_self a as)

theorem count_le_maxCount {nn : List Cell} {x : Cell} (hx : x ∈ nn) :
    nn.count x ≤ maxCount nn :=
  le_foldr_max _ _ (List.mem_map_of_mem (fun c => nn.count c) hx)

theorem maxCount_attained {nn : List Cell} (h : nn ≠ []) :
    ∃ c ∈ nn, nn.count c = maxCount nn := by
  rcases foldr_max_mem_or_zero (nn.map (fun c => nn.count c)) with hm | hm
  · rcases List.mem_map.mp hm with ⟨c, hc, hc2⟩
    exact ⟨c, hc, hc2⟩
  · rcases List.exists_mem_of_ne_nil nn h with ⟨c, hc⟩
    have h1 : 0 < nn.count c := List.count_pos_iff.mpr hc
    have h2 := count_le_maxCount hc
    rw [maxCount] at h2
    omega

/-- Complete characterization of the imputation mode of a column with at least
one non-null value: it is a non-null value of maximal frequency, and no value
of the same frequency is below it in sort order. -/
theorem modeCell_spec {cells : List Cell} (h : nonNullCells cells ≠ []) :
    ∃ m, modeCell cells = some m ∧ m ∈ nonNullCells cells ∧
      ((nonNullCells cells).count m = maxCount (nonNullCells cells)) ∧
      (∀ v ∈ nonNullCells cells, (nonNullCells cells).count v ≤ (nonNullCells cells).count m) ∧
      (∀ v ∈ nonNullCells cells,
        (nonNullCells cells).count v = (nonNullCells cells).count m → cellLt v m = false) := by
  set nn := nonNullCells cells with hnn
  set cands := (dedupFrom [] nn).filter (fun c => nn.count c == maxCount nn) with hcands
  have hmemc : ∀ v ∈ nn, nn.count v = maxCount nn → v ∈ cands := by
    intro v hv hvc
    rcases @mem_dedupFrom_of_mem Cell _ [] _ _ hv with hs | hd
    · cases hs
    · exact List.mem_filter.mpr ⟨hd, by simpa using hvc⟩
  rcases maxCount_attained h with ⟨c0, hc0, hc0max⟩
  have hc0c : c0 ∈ cands := hmemc c0 hc0 hc0max
  have hslen : sortCells cands ≠ [] := by
    intro hcon
    have := length_sortCells cands
    rw [hcon] at this
    exact (List.ne_nil_of_mem hc0c) (List.length_eq_zero.mp this.symm)
  obtain ⟨m, hm⟩ : ∃ m, (sortCells cands).head? = some m := by
    cases hsc : sortCells cands with
    | nil => exact absurd hsc hslen
    | cons z zs => exact ⟨z, rfl⟩
  have hmmem : m ∈ sortCells cands := List.mem_of_mem_head? hm
  have hmcands : m ∈ cands := mem_sortCells.mp hmmem
  have hmnn : m ∈ nn := mem_of_mem_dedupFrom (List.mem_filter.mp hmcands).1
  have hmmax : nn.count m = maxCount nn := by
    have := (List.mem_filter.mp hmcands).2
    simpa using this
  refine ⟨m, ?_, hmnn, hmmax, ?_, ?_⟩
  · rw [modeCell, ← hnn, ← hcands, hm]
  · intro v hv
    rw [hmmax]
    exact count_le_maxCount hv
  · intro v hv hvc
    have hvcands : v ∈ cands := hmemc v hv (hvc.trans hmmax)
    exact headLB_sortCells cands m hm v (mem_sortCells.mpr hvcands)

end Pipeline

namespace Pipeline

theorem median_isSome {xs : List ℚ} (h : xs ≠ []) : ∃ m, median xs = some m := by
  have hl : xs.length ≠ 0 := fun hc => h (List.length_eq_zero.mp hc)
  rw [median, if_neg hl]
  by_cases hodd : xs.length % 2 = 1
  · rw [if_pos hodd]; exact ⟨_, rfl⟩
  · rw [if_neg hodd]; exact ⟨_, rfl⟩

theorem numsOf_ne_nil {cells : List Cell} {c : Cell} (hc : c ∈ cells)
    (hnn : c.isNull = false) (hnum : isNumericCol cells = true) : numsOf cells ≠ [] := by
  have hstr : c.isStr = false := by
    have := List.all_eq_true.mp hnum c hc
    simpa using this
  cases c with
  | num q =>
    have : q ∈ numsOf cells := List.mem_filterMap.mpr ⟨Cell.num q, hc, rfl⟩
    exact List.ne_nil_of_mem this
  | str s => simp [Cell.isStr] at hstr
  | null => simp [Cell.isNull] at hnn

theorem mem_nonNullCells {cells : List Cell} {c : Cell} (hc : c ∈ cells)
    (hnn : c.isNull = false) : c ∈ nonNullCells cells :=
  List.mem_filter.mpr ⟨hc, by simp [hnn]⟩

theorem nonNullCells_no_null {cells : List Cell} :
    ∀ c ∈ nonNullCells cells, c.isNull = false := by
  intro c hc
  have := (List.mem_filter.mp hc).2
  simpa using this

theorem imputeTyped_no_null {cells : List Cell} (h : ∃ c ∈ cells, c.isNull = false) :
    ∀ x ∈ imputeTyped cells, x.isNull = false := by
  rcases h with ⟨c, hc, hcnn⟩
  by_cases hnum : isNumericCol cells = true
  · rcases median_isSome (numsOf_ne_nil hc hcnn hnum) with ⟨m, hm⟩
    simp only [imputeTyped, hnum, if_true, hm]
    exact fillWith_no_null (show (Cell.num m).isNull = false from rfl) cells
  · have hcne : nonNullCells cells ≠ [] := List.ne_nil_of_mem (mem_nonNullCells hc hcnn)
    rcases modeCell_spec hcne with ⟨m, hm, hmmem, -, -, -⟩
    simp only [imputeTyped, hnum, if_false, hm]
    exact fillWith_no_null (nonNullCells_no_null m hmmem) cells

theorem imputeCol_no_null {cells : List Cell} (h : ∃ c ∈ cells, c.isNull = false) :
    ∀ x ∈ imputeCol cells, x.isNull = false := by
  have := imputeTyped_no_null h
  rw [imputeCol, imputeCol_of_no_null this]
  exact this

/-- Every column surviving stage 1 still holds a non-null cell after stage 2:
the witnessing row either survives deduplication or is equal to a surviving
earlier row. -/
theorem names_dropDuplicatesTable (t : Table) : (dropDuplicatesTable t).names = t.names := by
  rw [dropDuplicatesTable]
  split
  · rfl
  · rfl

theorem mem_dropDuplicatesTable {t : Table} {r : Row} (h : r ∈ t.rows) :
    r ∈ (dropDuplicatesTable t).rows := by
  rw [dropDuplicatesTable]
  split
  · exact h
  · rcases @mem_dedupFrom_of_mem Row _ [] _ _ h with hs | hd
    · cases hs
    · exact hd

theorem col_has_nonnull (t : Table) (j : Nat)
    (hj : j < (dropNullColumns t).names.length) :
    ∃ c ∈ getCol (stage2Table t).rows j, c.isNull = false := by
  have hjk : j < (keptCols t).length := by
    simpa [dropNullColumns] using hj
  have hjj : (keptCols t)[j] ∈ keptCols t := List.getElem_mem hjk
  have hpred := (List.mem_filter.mp hjj).2
  rcases List.any_eq_true.mp hpred with ⟨r, hr, hrnn⟩
  have hrnn' : (cellAt r (keptCols t)[j]).isNull = false := by simpa using hrnn
  refine ⟨cellAt r (keptCols t)[j], ?_, hrnn'⟩
  have hr1 : (keptCols t).map (fun k => cellAt r k) ∈ (dropNullColumns t).rows := by
    simp only [dropNullColumns]
    exact List.mem_map_of_mem (fun r => (keptCols t).map (fun k => cellAt r k)) hr
  have hr2 : (keptCols t).map (fun k => cellAt r k) ∈ (stage2Table t).rows := by
    rw [stage2Table]
    exact mem_dropDuplicatesTable hr1
  have hcell : cellAt ((keptCols t).map (fun k => cellAt r k)) j = cellAt r (keptCols t)[j] := by
    have hlen : j < ((keptCols t).map (fun k => cellAt r k)).length := by
      simpa using hjk
    rw [cellAt, List.getD_eq_getElem _ _ hlen, List.getElem_map]
  rw [← hcell]
  exact List.mem_map_of_mem (fun rr => cellAt rr j) hr2

/-- Inversion of a successful pipeline run into its stages. -/
theorem preprocess_ok_elim {t t' : Table} {s : CleanStats}
    (h : preprocess_excel t = Except.ok (t', s)) :
    t.rows.length ≠ 0 ∧ t.names.length ≠ 0 ∧
    t' = renameColumns (imputeTable (stage2Table t)) ∧
    s = { original_rows := t.rows.length, original_cols := t.names.length,
          null_columns_removed := t.names.length - (dropNullColumns t).names.length,
          duplicates_removed := (dropNullColumns t).rows.length -
            (stage2Table t).rows.length,
          missing_before := countNulls t.rows,
          missing_after := countNulls (imputeTable (stage2Table t)).rows } := by
  rw [preprocess_excel] at h
  split at h
  · cases h
  · next hg =>
    simp only [Bool.or_eq_true, decide_eq_true_eq, not_or] at hg
    simp only [Except.ok.injEq, Prod.mk.injEq] at h
    exact ⟨hg.1, hg.2, by rw [stage2Table, ← h.1], by rw [stage2Table, ← h.2]⟩

end Pipeline

namespace Pipeline

theorem imputeTable_rows_no_null (t2 : Table)
    (hcols : ∀ j, j < t2.names.length → ∃ c ∈ getCol t2.rows j, c.isNull = false) :
    (∀ r ∈ (imputeTable t2).rows, r.length = t2.names.length) ∧
    (∀ r ∈ (imputeTable t2).rows, ∀ c ∈ r, c.isNull = false) := by
  constructor
  · intro r hr
    simp only [imputeTable] at hr
    rcases List.mem_map.mp hr with ⟨i, _, rfl⟩
    simp
  · intro r hr c hc
    simp only [imputeTable] at hr
    rcases List.mem_map.mp hr with ⟨i, hi, rfl⟩
    rcases List.mem_map.mp hc with ⟨col, hcol, rfl⟩
    rcases List.mem_map.mp hcol with ⟨j, hj, rfl⟩
    have hjlt : j < t2.names.length := List.mem_range.mp hj
    have hilt : i < t2.rows.length := List.mem_range.mp hi
    have hlen : i < (imputeCol (getCol t2.rows j)).length := by
      rw [length_imputeCol]
      simpa [getCol] using hilt
    have hmem : (imputeCol (getCol t2.rows j)).getD i Cell.null ∈
        imputeCol (getCol t2.rows j) := by
      rw [List.getD_eq_getElem _ _ hlen]
      exact List.getElem_mem hlen
    exact imputeCol_no_null (hcols j hjlt) _ hmem

/-- Master structural theorem about a successful run: the cleaned table is
well-formed, contains no null cell at all, and `missing_after` is zero. -/
theorem preprocess_ok_strong {t t' : Table} {s : CleanStats}
    (h : preprocess_excel t = Except.ok (t', s)) :
    (∀ r ∈ t'.rows, r.length = t'.names.length) ∧
    (∀ r ∈ t'.rows, ∀ c ∈ r, c.isNull = false) ∧
    s.missing_after = 0 := by
  obtain ⟨-, -, ht', hs⟩ := preprocess_ok_elim h
  have hcols : ∀ j, j < (stage2Table t).names.length →
      ∃ c ∈ getCol (stage2Table t).rows j, c.isNull = false := by
    intro j hj
    exact col_has_nonnull t j (by simpa [stage2Table, names_dropDuplicatesTable] using hj)
  obtain ⟨hlen, hnn⟩ := imputeTable_rows_no_null (stage2Table t) hcols
  have hrows : t'.rows = (imputeTable (stage2Table t)).rows := by
    rw [ht']
    rfl
  have hnameslen : t'.names.length = (stage2Table t).names.length := by
    rw [ht']
    simp [renameColumns, imputeTable]
  refine ⟨?_, ?_, ?_⟩
  · intro r hr
    rw [hnameslen]
    exact hlen r (hrows ▸ hr)
  · intro r hr
    exact hnn r (hrows ▸ hr)
  · rw [hs]
    exact countNulls_eq_zero hnn

theorem preprocess_names {t t' : Table} {s : CleanStats}
    (h : preprocess_excel t = Except.ok (t', s)) :
    t'.names = (dropNullColumns t).names.map normalizeName := by
  obtain ⟨-, -, ht', -⟩ := preprocess_ok_elim h
  rw [ht']
  simp [renameColumns, imputeTable, stage2Table, names_dropDuplicatesTable]

theorem keptCols_full {t : Table} (hrows : t.rows.length ≠ 0)
    (hwf : ∀ r ∈ t.rows, r.length = t.names.length)
    (hnn : ∀ r ∈ t.rows, ∀ c ∈ r, c.isNull = false) :
    keptCols t = List.range t.names.length := by
  rw [keptCols]
  apply List.filter_eq_self.mpr
  intro j hj
  have hjlt := List.mem_range.mp hj
  obtain ⟨r, hr⟩ := List.exists_mem_of_ne_nil t.rows
    (fun hc => hrows (by rw [hc]; rfl))
  apply List.any_eq_true.mpr
  refine ⟨r, hr, ?_⟩
  have hjr : j < r.length := by
    rw [hwf r hr]
    exact hjlt
  have hmem : cellAt r j ∈ r := by
    rw [cellAt, List.getD_eq_getElem _ _ hjr]
    exact List.getElem_mem hjr
  simp [hnn r hr _ hmem]

/-- Statistics of a second run of the pipeline on an already cleaned table:
no further all-null column is removed, and `missing_after` stays put. -/
theorem second_run_stats {t t1 t2 : Table} {s1 s2 : CleanStats}
    (h1 : preprocess_excel t = Except.ok (t1, s1))
    (h2 : preprocess_excel t1 = Except.ok (t2, s2)) :
    s2.null_columns_removed = 0 ∧ s2.missing_after = s1.missing_after ∧
    s1.missing_after = 0 := by
  obtain ⟨hwf1, hnn1, hma1⟩ := preprocess_ok_strong h1
  obtain ⟨-, -, hma2⟩ := preprocess_ok_strong h2
  obtain ⟨hr1, -, -, hs2⟩ := preprocess_ok_elim h2
  refine ⟨?_, by rw [hma1, hma2], hma1⟩
  rw [hs2]
  show t1.names.length - (dropNullColumns t1).names.length = 0
  have hkept : keptCols t1 = List.range t1.names.length := keptCols_full hr1 hwf1 hnn1
  simp [dropNullColumns, hkept]

end Pipeline

namespace Score

theorem roundHalfEven_cases (q : ℚ) :
    roundHalfEven q = ⌊q⌋ ∨ roundHalfEven q = ⌊q⌋ + 1 := by
  rw [roundHalfEven]
  split
  · exact Or.inl rfl
  · split
    · exact Or.inr rfl
    · split
      · exact Or.inl rfl
      · exact Or.inr rfl

theorem roundHalfEven_nonneg {q : ℚ} (h : 0 ≤ q) : 0 ≤ roundHalfEven q := by
  have hf : 0 ≤ ⌊q⌋ := Int.floor_nonneg.mpr h
  rcases roundHalfEven_cases q with hc | hc <;> omega

theorem roundHalfEven_le {q : ℚ} {n : ℤ} (h : q ≤ (n : ℚ)) : roundHalfEven q ≤ n := by
  have hfl : ⌊q⌋ ≤ n := by
    have := Int.floor_le_floor h
    simpa using this
  by_cases heq : ⌊q⌋ = n
  · have hq : q - (⌊q⌋ : ℚ) < 1 / 2 := by
      have h1 : q ≤ (⌊q⌋ : ℚ) := by
        rw [heq]
        exact_mod_cast h
      linarith
    rw [roundHalfEven, if_pos hq]
    exact hfl
  · rcases roundHalfEven_cases q with hc | hc <;> omega

theorem round2_nonneg {q : ℚ} (h : 0 ≤ q) : 0 ≤ round2 q := by
  rw [round2]
  apply div_nonneg _ (by norm_num)
  exact_mod_cast roundHalfEven_nonneg (by positivity)

theorem round2_le_100 {q : ℚ} (h : q ≤ 100) : round2 q ≤ 100 := by
  rw [round2, div_le_iff (by norm_num : (0 : ℚ) < 100)]
  have h1 : q * 100 ≤ ((10000 : ℤ) : ℚ) := by
    push_cast
    linarith
  have h2 := roundHalfEven_le h1
  calc ((roundHalfEven (q * 100) : ℤ) : ℚ) ≤ ((10000 : ℤ) : ℚ) := by exact_mod_cast h2
    _ = 100 * 100 := by norm_num

end Score

namespace Score

theorem clamp_round_eq {c i k : ℚ} (hc : 0 ≤ c) (hc2 : c ≤ 100) (hi : 0 ≤ i) (hi2 : i ≤ 100)
    (hk : 0 ≤ k) (hk2 : k ≤ 100) :
    0 ⊔ 100 ⊓ round2 (0.4 * c + 0.3 * i + 0.3 * k)
      = round2 (100 ⊓ (0 ⊔ (0.4 * c + 0.3 * i + 0.3 * k))) ∧
    0 ≤ 0 ⊔ 100 ⊓ round2 (0.4 * c + 0.3 * i + 0.3 * k) ∧
    0 ⊔ 100 ⊓ round2 (0.4 * c + 0.3 * i + 0.3 * k) ≤ 100 := by
  have hS0 : 0 ≤ 0.4 * c + 0.3 * i + 0.3 * k := by nlinarith
  have hS100 : 0.4 * c + 0.3 * i + 0.3 * k ≤ 100 := by nlinarith
  have hr0 := round2_nonneg hS0
  have hr100 := round2_le_100 hS100
  refine ⟨?_, ?_, ?_⟩
  · rw [max_eq_right hS0, min_eq_right hS100, min_eq_right hr100, max_eq_right hr0]
  · exact le_max_left 0 _
  · exact max_le (by norm_num) (min_le_left _ _)

/-- The source scorer and the specification scorer agree everywhere, and both
stay inside the `[0,100]` band: the sub-scores already lie in `[0,100]`, so
rounding before clamping (source) and clamping before rounding (spec) give the
same value. -/
theorem score_eq_spec_bounds (a b mb ma dr : Nat) :
    calculate_data_score a b mb ma dr = scoreSpec a b mb ma dr ∧
    0 ≤ calculate_data_score a b mb ma dr ∧
    calculate_data_score a b mb ma dr ≤ 100 := by
  by_cases h0 : ((a : ℚ) * (b : ℚ)) = 0
  · rw [calculate_data_score, scoreSpec]
    simp only [h0, if_pos]
    norm_num
  · rw [calculate_data_score, scoreSpec]
    simp only [if_neg h0]
    have hI : (0 ⊔ 100 ⊓ (if (0 : ℚ) < (mb : ℚ) then ((mb : ℚ) - (ma : ℚ)) / (mb : ℚ) * 100 else 100))
        = (if (0 : ℚ) < (mb : ℚ) then 0 ⊔ 100 ⊓ (((mb : ℚ) - (ma : ℚ)) / (mb : ℚ) * 100) else 100) := by
      by_cases hmb : (0 : ℚ) < (mb : ℚ)
      · simp [hmb]
      · norm_num [hmb]
    rw [hI]
    have hd1 : (0 : ℚ) ≤ (ma : ℚ) / ((a : ℚ) * (b : ℚ)) * 100 := by positivity
    have hCb1 : (0 : ℚ) ≤ 0 ⊔ (100 - (ma : ℚ) / ((a : ℚ) * (b : ℚ)) * 100) := le_max_left 0 _
    have hCb2 : (0 : ℚ) ⊔ (100 - (ma : ℚ) / ((a : ℚ) * (b : ℚ)) * 100) ≤ 100 :=
      max_le (by norm_num) (by linarith)
    have hIb1 : (0 : ℚ) ≤ (if (0 : ℚ) < (mb : ℚ) then
        0 ⊔ 100 ⊓ (((mb : ℚ) - (ma : ℚ)) / (mb : ℚ) * 100) else 100) := by
      by_cases hmb : (0 : ℚ) < (mb : ℚ) <;> simp [hmb]
    have hIb2 : (if (0 : ℚ) < (mb : ℚ) then
        0 ⊔ 100 ⊓ (((mb : ℚ) - (ma : ℚ)) / (mb : ℚ) * 100) else 100) ≤ 100 := by
      by_cases hmb : (0 : ℚ) < (mb : ℚ)
      · simp only [if_pos hmb]
        exact max_le (by norm_num) (min_le_left _ _)
      · simp [hmb]
    have hd2 : (0 : ℚ) ≤ (dr : ℚ) / (a : ℚ) * 100 := by positivity
    have hKb1 : (0 : ℚ) ≤ (if (0 : ℚ) < (a : ℚ) then
        0 ⊔ (100 - (dr : ℚ) / (a : ℚ) * 100) else 100) := by
      by_cases ha : (0 : ℚ) < (a : ℚ) <;> simp [ha]
    have hKb2 : (if (0 : ℚ) < (a : ℚ) then
        0 ⊔ (100 - (dr : ℚ) / (a : ℚ) * 100) else 100) ≤ 100 := by
      by_cases ha : (0 : ℚ) < (a : ℚ)
      · simp only [if_pos ha]
        exact max_le (by norm_num) (by linarith)
      · simp [ha]
    exact clamp_round_eq hCb1 hCb2 hIb1 hIb2 hKb1 hKb2

end Score

namespace Pipeline

theorem bool_and_absorb {a b c : Bool} (h : a = true → b = true) :
    (a && c) = (a && (b && c)) := by
  cases a
  · rfl
  · rw [h rfl]
    rfl

theorem bool_and_rotate {a b c : Bool} : ((b && a) && c) = (a && (b && c)) := by
  cases a <;> cases b <;> cases c <;> rfl

theorem dedupFrom_eq_spec : ∀ (rs seen : List Row),
    dedupFrom seen rs = ((List.range rs.length).filter
      (fun i => decide (rs.getD i [] ∉ seen) && decide (rs.getD i [] ∉ rs.take i))).map
      (fun i => rs.getD i [])
  | [], seen => rfl
  | r :: rs', seen => by
    rw [List.length_cons, List.range_succ_eq_map, List.filter_cons]
    simp only [List.getD_cons_zero, List.take_zero, List.not_mem_nil, not_false_iff,
      decide_True, Bool.and_true]
    by_cases hr : r ∈ seen
    · have hcond : ¬ (decide (r ∉ seen) = true) := by simpa using hr
      rw [if_neg hcond, List.filter_map, List.map_map]
      have hlhs : dedupFrom seen (r :: rs') = dedupFrom seen rs' := by
        simp only [dedupFrom, if_pos hr]
      rw [hlhs, dedupFrom_eq_spec rs' seen]
      simp only [Function.comp_def, Nat.succ_eq_add_one, List.getD_cons_succ, List.take_succ_cons, List.mem_cons,
        not_or, Bool.decide_and]
      refine congrArg (List.map _) (List.filter_congr ?_)
      intro i _
      apply bool_and_absorb
      intro ha
      exact decide_eq_true (fun hc => (of_decide_eq_true ha) (hc ▸ hr))
    · have hcond : decide (r ∉ seen) = true := by simpa using hr
      rw [if_pos hcond, List.map_cons, List.filter_map, List.map_map]
      have hlhs : dedupFrom seen (r :: rs') = r :: dedupFrom (r :: seen) rs' := by
        simp only [dedupFrom, if_neg hr]
      rw [hlhs, dedupFrom_eq_spec rs' (r :: seen)]
      simp only [Function.comp_def, Nat.succ_eq_add_one, List.getD_cons_succ, List.take_succ_cons, List.mem_cons,
        not_or, Bool.decide_and, List.getD_cons_zero]
      congr 1
      refine congrArg (List.map _) (List.filter_congr ?_)
      intro i _
      exact bool_and_rotate

theorem dropDuplicates_eq_specDedup (rows : List Row) :
    dropDuplicates rows = specDedup rows := by
  rw [dropDuplicates, dedupFrom_eq_spec, specDedup]
  simp

end Pipeline

namespace Pipeline

theorem imputeCol_categorical {cells : List Cell} {m : Cell}
    (hstr : ∃ c ∈ cells, c.isStr = true) (hm : modeCell cells = some m)
    (hmnn : m.isNull = false) :
    imputeCol cells = fillWith m cells := by
  have hnum : ¬ isNumericCol cells = true := by
    rcases hstr with ⟨c, hc, hcs⟩
    intro hcon
    have := List.all_eq_true.mp hcon c hc
    simp [hcs] at this
  have ht : imputeTyped cells = fillWith m cells := by
    simp [imputeTyped, hnum, hm]
  rw [imputeCol, ht, imputeCol_of_no_null (fillWith_no_null hmnn cells)]

end Pipeline

open Pipeline Score

/-- Claim C1, counterexample: the pipeline is not idempotent in duplicate
removal.  Cleaning `tblIdem` imputes its null to 1, leaving two identical
rows, so a second run of the pipeline removes one more duplicate instead of
the zero the claim asserts. -/
theorem claim_C1_counterexample :
    (cleanAgain tblIdem).map (fun s => s.duplicates_removed) = some 1 ∧
    (cleanAgain tblIdem).map (fun s => s.duplicates_removed) ≠ some 0 := by
  exact ⟨by decide, by decide⟩

/-- Claim C1, amended: when the pipeline accepts a cleaned table again, the
second run removes zero additional all-null columns and leaves
`missing_after` unchanged (both runs end at zero), but it may remove
additional duplicate rows created by the imputation of stage 3. -/
theorem claim_C1_amended (t t1 t2 : Table) (s1 s2 : CleanStats)
    (h1 : preprocess_excel t = Except.ok (t1, s1))
    (h2 : preprocess_excel t1 = Except.ok (t2, s2)) :
    s2.null_columns_removed = 0 ∧ s2.missing_after = s1.missing_after :=
  ⟨(second_run_stats h1 h2).1, (second_run_stats h1 h2).2.1⟩

/-- Claim C1, witness: the amended statement at the concrete table `tblIdem`. -/
theorem claim_C1_witness :
    preprocess_excel tblIdem = Except.ok
      (Table.mk ["a"] [[Cell.num 1], [Cell.num 1]], CleanStats.mk 2 1 0 0 1 0) ∧
    preprocess_excel (Table.mk ["a"] [[Cell.num 1], [Cell.num 1]]) = Except.ok
      (Table.mk ["a"] [[Cell.num 1]], CleanStats.mk 2 1 0 1 0 0) ∧
    ((CleanStats.mk 2 1 0 1 0 0).null_columns_removed = 0 ∧
      (CleanStats.mk 2 1 0 1 0 0).missing_after = (CleanStats.mk 2 1 0 0 1 0).missing_after) :=
  ⟨by decide, by decide,
    claim_C1_amended tblIdem (Table.mk ["a"] [[Cell.num 1], [Cell.num 1]])
      (Table.mk ["a"] [[Cell.num 1]]) (CleanStats.mk 2 1 0 0 1 0)
      (CleanStats.mk 2 1 0 1 0 0) (by decide) (by decide)⟩

/-- Claim C2, counterexample: in the text column of `tblTie` the values "b"
(encountered first) and "a" tie in frequency; the pipeline fills the null
with "a", the least tied value in sorted order, not with the
first-encountered "b". -/
theorem claim_C2_counterexample :
    (preprocess_excel tblTie).toOption.map (fun p => p.1.rows)
      = some [[Cell.str "b"], [Cell.str "a"], [Cell.str "a"]] ∧
    (preprocess_excel tblTie).toOption.map (fun p => p.1.rows)
      ≠ some [[Cell.str "b"], [Cell.str "a"], [Cell.str "b"]] := by
  exact ⟨by decide, by decide⟩

/-- Claim C2, amended: in a text column with at least one non-null value,
stage 3 replaces each null with the column's most frequent non-null value,
and when several values tie at the maximal frequency the fill value is the
least tied value in sort order (for text, the lexicographically smallest),
not the first-encountered one. -/
theorem claim_C2_amended (cells : List Cell)
    (hall : ∀ c ∈ cells, c.isStr = true ∨ c.isNull = true)
    (hex : ∃ c ∈ cells, c.isStr = true) :
    ∃ m, modeCell cells = some m ∧ m.isNull = false ∧
      (∀ v ∈ nonNullCells cells,
        (nonNullCells cells).count v ≤ (nonNullCells cells).count m) ∧
      (∀ v ∈ nonNullCells cells,
        (nonNullCells cells).count v = (nonNullCells cells).count m → cellLt v m = false) ∧
      imputeCol cells = fillWith m cells := by
  rcases hex with ⟨c, hc, hcs⟩
  have hcnn : c.isNull = false := by
    cases c <;> simp_all [Cell.isStr, Cell.isNull]
  have hne : nonNullCells cells ≠ [] := List.ne_nil_of_mem (mem_nonNullCells hc hcnn)
  rcases modeCell_spec hne with ⟨m, hm, hmmem, hmmax, hmle, hmtie⟩
  exact ⟨m, hm, nonNullCells_no_null m hmmem, hmle, hmtie,
    imputeCol_categorical ⟨c, hc, hcs⟩ hm (nonNullCells_no_null m hmmem)⟩

/-- Claim C2, witness: the amended statement at the concrete tied column. -/
theorem claim_C2_witness :
    (∀ c ∈ [Cell.str "b", Cell.str "a", Cell.null], c.isStr = true ∨ c.isNull = true) ∧
    (∃ c ∈ [Cell.str "b", Cell.str "a", Cell.null], c.isStr = true) ∧
    (∃ m, modeCell [Cell.str "b", Cell.str "a", Cell.null] = some m ∧ m.isNull = false ∧
      (∀ v ∈ nonNullCells [Cell.str "b", Cell.str "a", Cell.null],
        (nonNullCells [Cell.str "b", Cell.str "a", Cell.null]).count v ≤
          (nonNullCells [Cell.str "b", Cell.str "a", Cell.null]).count m) ∧
      (∀ v ∈ nonNullCells [Cell.str "b", Cell.str "a", Cell.null],
        (nonNullCells [Cell.str "b", Cell.str "a", Cell.null]).count v =
          (nonNullCells [Cell.str "b", Cell.str "a", Cell.null]).count m →
            cellLt v m = false) ∧
      imputeCol [Cell.str "b", Cell.str "a", Cell.null] =
        fillWith m [Cell.str "b", Cell.str "a", Cell.null]) :=
  ⟨by decide, by decide,
    claim_C2_amended [Cell.str "b", Cell.str "a", Cell.null] (by decide) (by decide)⟩

/-- Claim C3, counterexample: a table with one column and zero rows is
rejected with the empty-input error although it does not have zero rows and
zero columns, so "fails exactly when zero rows and zero columns" is false. -/
theorem claim_C3_counterexample :
    preprocess_excel tblZeroRows = Except.error CleanError.emptyInput ∧
    tblZeroRows.names.length ≠ 0 := by
  exact ⟨by decide, by decide⟩

/-- Claim C3, amended: the pipeline fails with the empty-input error exactly
when the row axis or the column axis has length zero (the `df.empty` test);
on every other table it succeeds with a result pair, and a failure carries no
cleaned output. -/
theorem claim_C3_amended (t : Table) :
    ((t.rows.length = 0 ∨ t.names.length = 0) →
      preprocess_excel t = Except.error CleanError.emptyInput) ∧
    (t.rows.length ≠ 0 → t.names.length ≠ 0 →
      ∃ p, preprocess_excel t = Except.ok p) := by
  constructor
  · intro h
    rw [preprocess_excel, if_pos (by simp only [Bool.or_eq_true, decide_eq_true_eq]; exact h)]
  · intro h1 h2
    rw [preprocess_excel,
      if_neg (by simp only [Bool.or_eq_true, decide_eq_true_eq]; exact not_or.mpr ⟨h1, h2⟩)]
    exact ⟨_, rfl⟩

/-- Claim C3, witness: both halves of the amended statement at concrete
tables. -/
theorem claim_C3_witness :
    ((tblZeroRows.rows.length = 0 ∨ tblZeroRows.names.length = 0) ∧
      preprocess_excel tblZeroRows = Except.error CleanError.emptyInput) ∧
    (tblIdem.rows.length ≠ 0 ∧ tblIdem.names.length ≠ 0 ∧
      ∃ p, preprocess_excel tblIdem = Except.ok p) :=
  ⟨⟨Or.inl (by decide), (claim_C3_amended tblZeroRows).1 (Or.inl (by decide))⟩,
    ⟨by decide, by decide, (claim_C3_amended tblIdem).2 (by decide) (by decide)⟩⟩

/-- Claim C4: on every accepted table the statistics satisfy
`missing_after ≤ missing_before`; in fact `missing_after` is always zero. -/
theorem claim_C4_missing_monotone (t t' : Table) (s : CleanStats)
    (h : preprocess_excel t = Except.ok (t', s)) :
    s.missing_after ≤ s.missing_before := by
  have h0 := (preprocess_ok_strong h).2.2
  omega

/-- Claim C4, witness: the monotonicity statement at the concrete table
`tblWitness`. -/
theorem claim_C4_witness :
    preprocess_excel tblWitness = Except.ok
      (Table.mk ["first_name", "n"]
        [[Cell.str "bob", Cell.num 1], [Cell.str "bob", Cell.num 3],
          [Cell.str "bob", Cell.num 3], [Cell.str "ann", Cell.num 3]],
       CleanStats.mk 4 2 0 0 2 0) ∧
    (CleanStats.mk 4 2 0 0 2 0).missing_after ≤ (CleanStats.mk 4 2 0 0 2 0).missing_before :=
  ⟨by decide,
    claim_C4_missing_monotone tblWitness
      (Table.mk ["first_name", "n"]
        [[Cell.str "bob", Cell.num 1], [Cell.str "bob", Cell.num 3],
          [Cell.str "bob", Cell.num 3], [Cell.str "ann", Cell.num 3]])
      (CleanStats.mk 4 2 0 0 2 0) (by decide)⟩

/-- Claim C5: the source scorer equals the specification formula — weighted
sum of the three sub-scores, clamped to `[0,100]` and rounded to two decimal
places — and its value always lies in `[0,100]`. -/
theorem claim_C5_score_formula (a b mb ma dr : Nat) :
    calculate_data_score a b mb ma dr = scoreSpec a b mb ma dr ∧
    0 ≤ calculate_data_score a b mb ma dr ∧
    calculate_data_score a b mb ma dr ≤ 100 :=
  score_eq_spec_bounds a b mb ma dr

/-- Claim C6, counterexample: on `tblAllNull` stage 1 drops every column and
stage 2 then runs on a three-row zero-column frame, where pandas'
empty-frame short-circuit keeps all three (vacuously identical) rows and
records zero duplicates — first-occurrence deduplication would instead keep
one row and record two, so the unconditional claim is false. -/
theorem claim_C6_counterexample :
    (preprocess_excel tblAllNull).toOption.map
      (fun p => (p.2.duplicates_removed, p.1.rows.length)) = some (0, 3) ∧
    specDedup (dropNullColumns tblAllNull).rows = [[]] ∧
    (stage2Table tblAllNull).rows = [[], [], []] := by
  exact ⟨by decide, by decide, by decide⟩

/-- Claim C6, amended: provided at least one column survives stage 1, stage
2 keeps exactly the first occurrence of each distinct row in original order
(rows compared cellwise with null equal to null, the list result renumbering
rows from zero) and records `duplicates_removed` as the number of rows
dropped; when stage 1 drops every column, the empty-frame short-circuit
keeps every row and records zero.  The three-row scenario with two identical
rows yields one removed duplicate and two surviving rows. -/
theorem claim_C6_amended :
    (∀ t t' s, preprocess_excel t = Except.ok (t', s) →
      (dropNullColumns t).names.length ≠ 0 →
      (stage2Table t).rows = specDedup (dropNullColumns t).rows ∧
      s.duplicates_removed =
        (dropNullColumns t).rows.length - (specDedup (dropNullColumns t).rows).length) ∧
    (preprocess_excel tblScenarioDup).toOption.map
      (fun p => (p.2.duplicates_removed, p.1.rows.length)) = some (1, 2) := by
  constructor
  · intro t t' s h hne
    obtain ⟨hr0, -, -, hs⟩ := preprocess_ok_elim h
    have hrows1 : ¬ (dropNullColumns t).rows.length = 0 := by
      simpa [dropNullColumns] using hr0
    have hs2 : (stage2Table t).rows = dropDuplicates (dropNullColumns t).rows := by
      rw [stage2Table, dropDuplicatesTable,
        if_neg (by simp only [Bool.or_eq_true, decide_eq_true_eq]
                   exact not_or.mpr ⟨hrows1, hne⟩)]
    refine ⟨by rw [hs2, dropDuplicates_eq_specDedup], ?_⟩
    rw [hs, hs2, ← dropDuplicates_eq_specDedup]
  · decide

/-- Claim C6, witness: the universal part at the scenario table, where both
columns survive stage 1. -/
theorem claim_C6_witness :
    preprocess_excel tblScenarioDup = Except.ok
      (Table.mk ["c1", "c2"] [[Cell.str "a", Cell.num 1], [Cell.str "x", Cell.num 2]],
       CleanStats.mk 3 2 0 1 0 0) ∧
    (dropNullColumns tblScenarioDup).names.length ≠ 0 ∧
    ((stage2Table tblScenarioDup).rows = specDedup (dropNullColumns tblScenarioDup).rows ∧
      (CleanStats.mk 3 2 0 1 0 0).duplicates_removed =
        (dropNullColumns tblScenarioDup).rows.length -
          (specDedup (dropNullColumns tblScenarioDup).rows).length) :=
  ⟨by decide, by decide,
    claim_C6_amended.1 tblScenarioDup
      (Table.mk ["c1", "c2"] [[Cell.str "a", Cell.num 1], [Cell.str "x", Cell.num 2]])
      (CleanStats.mk 3 2 0 1 0 0) (by decide) (by decide)⟩

/-- Claim C7: whenever `original_rows * original_cols = 0` the scorer
short-circuits to exactly 0, before any sub-score formula is evaluated. -/
theorem claim_C7_zero_cells (a b mb ma dr : Nat) (h : a * b = 0) :
    calculate_data_score a b mb ma dr = 0 := by
  have h0 : ((a : ℚ) * (b : ℚ)) = 0 := by
    have : ((a * b : Nat) : ℚ) = 0 := by rw [h]; norm_num
    push_cast at this
    exact this
  rw [calculate_data_score]
  simp only [h0, if_pos]

/-- Claim C7, witness: the short-circuit at a degenerate shape whose
improvement sub-score would otherwise be positive. -/
theorem claim_C7_witness :
    0 * 5 = 0 ∧ calculate_data_score 0 5 3 0 0 = 0 :=
  ⟨by decide, claim_C7_zero_cells 0 5 3 0 0 (by decide)⟩

/-- Claim C8: every cleaned column name is the stage-1 survivor name trimmed
of surrounding whitespace, internal spaces replaced by underscores, and
lower-cased; in particular `" First Name "` normalizes to `"first_name"`. -/
theorem claim_C8_normalization :
    (∀ t t' s, preprocess_excel t = Except.ok (t', s) →
      t'.names = (dropNullColumns t).names.map normalizeName) ∧
    normalizeName " First Name " = "first_name" :=
  ⟨fun _ _ _ h => preprocess_names h, by decide⟩

/-- Claim C8, witness: the universal part at the concrete table `tblWitness`. -/
theorem claim_C8_witness :
    preprocess_excel tblWitness = Except.ok
      (Table.mk ["first_name", "n"]
        [[Cell.str "bob", Cell.num 1], [Cell.str "bob", Cell.num 3],
          [Cell.str "bob", Cell.num 3], [Cell.str "ann", Cell.num 3]],
       CleanStats.mk 4 2 0 0 2 0) ∧
    (Table.mk ["first_name", "n"]
        [[Cell.str "bob", Cell.num 1], [Cell.str "bob", Cell.num 3],
          [Cell.str "bob", Cell.num 3], [Cell.str "ann", Cell.num 3]]).names =
      (dropNullColumns tblWitness).names.map normalizeName :=
  ⟨by decide,
    claim_C8_normalization.1 tblWitness
      (Table.mk ["first_name", "n"]
        [[Cell.str "bob", Cell.num 1], [Cell.str "bob", Cell.num 3],
          [Cell.str "bob", Cell.num 3], [Cell.str "ann", Cell.num 3]])
      (CleanStats.mk 4 2 0 0 2 0) (by decide)⟩

/-- Claim C9, counterexample: the distinct original names "A B" and "A_B"
both normalize to "a_b", so the cleaned table of `tblCollide` carries
duplicate column names — stage 4 does not keep names unique. -/
theorem claim_C9_counterexample :
    (preprocess_excel tblCollide).toOption.map (fun p => p.1.names) = some ["a_b", "a_b"] ∧
    ¬ (["a_b", "a_b"] : List String).Nodup := by
  exact ⟨by decide, by decide⟩

/-- Claim C9, amended: the cleaned column names are pairwise distinct
whenever normalization does not merge two distinct surviving names, i.e.
whenever the normalized stage-1 names are already pairwise distinct;
colliding names survive as duplicates. -/
theorem claim_C9_amended (t t' : Table) (s : CleanStats)
    (h : preprocess_excel t = Except.ok (t', s))
    (hnodup : ((dropNullColumns t).names.map normalizeName).Nodup) :
    t'.names.Nodup := by
  rw [preprocess_names h]
  exact hnodup

/-- Claim C9, witness: the amended statement at the concrete table
`tblWitness`, whose two names stay distinct after normalization. -/
theorem claim_C9_witness :
    preprocess_excel tblWitness = Except.ok
      (Table.mk ["first_name", "n"]
        [[Cell.str "bob", Cell.num 1], [Cell.str "bob", Cell.num 3],
          [Cell.str "bob", Cell.num 3], [Cell.str "ann", Cell.num 3]],
       CleanStats.mk 4 2 0 0 2 0) ∧
    ((dropNullColumns tblWitness).names.map normalizeName).Nodup ∧
    (Table.mk ["first_name", "n"]
        [[Cell.str "bob", Cell.num 1], [Cell.str "bob", Cell.num 3],
          [Cell.str "bob", Cell.num 3], [Cell.str "ann", Cell.num 3]]).names.Nodup :=
  ⟨by decide, by decide,
    claim_C9_amended tblWitness
      (Table.mk ["first_name", "n"]
        [[Cell.str "bob", Cell.num 1], [Cell.str "bob", Cell.num 3],
          [Cell.str "bob", Cell.num 3], [Cell.str "ann", Cell.num 3]])
      (CleanStats.mk 4 2 0 0 2 0) (by decide) (by decide)⟩

/-- Claim C10: on every accepted table the cleaned output contains no null
cell at all and `missing_after` is exactly zero — stage 1 leaves every
surviving column a non-null value, deduplication cannot lose the last one,
and imputation then resolves every null. -/
theorem claim_C10_no_nulls (t t' : Table) (s : CleanStats)
    (h : preprocess_excel t = Except.ok (t', s)) :
    s.missing_after = 0 ∧ ∀ r ∈ t'.rows, ∀ c ∈ r, c.isNull = false :=
  ⟨(preprocess_ok_strong h).2.2, (preprocess_ok_strong h).2.1⟩

/-- Claim C10, witness: the statement at the concrete table `tblTie`, which
starts with one null. -/
theorem claim_C10_witness :
    preprocess_excel tblTie = Except.ok
      (Table.mk ["c"] [[Cell.str "b"], [Cell.str "a"], [Cell.str "a"]],
       CleanStats.mk 3 1 0 0 1 0) ∧
    ((CleanStats.mk 3 1 0 0 1 0).missing_after = 0 ∧
      ∀ r ∈ (Table.mk ["c"] [[Cell.str "b"], [Cell.str "a"], [Cell.str "a"]]).rows,
        ∀ c ∈ r, c.isNull = false) :=
  ⟨by decide,
    claim_C10_no_nulls tblTie
      (Table.mk ["c"] [[Cell.str "b"], [Cell.str "a"], [Cell.str "a"]])
      (CleanStats.mk 3 1 0 0 1 0) (by decide)⟩
